import Mathlib

/-!
Verification of the scx "simple" scheduling policy
(`selftest/struct-ops/main.bpf.c`).

The policy core is a set of BPF hooks (`simple_select_cpu`, `simple_enqueue`,
`simple_dispatch`, `simple_running`, `simple_stopping`, `simple_enable`,
`simple_init`, `simple_exit`) over 64-bit unsigned state.  We embed each hook
as a pure Lean function: machine `u64` values are `Nat` with explicit
`% 2^64` wherever the C code can wrap, stateful writes become explicit state
passing, and the calls the hooks make into the host runtime
(`scx_bpf_dsq_insert`, `scx_bpf_dsq_insert_vtime`, `scx_bpf_dsq_move_to_local`,
`scx_bpf_create_dsq`, `UEI_RECORD`, `bpf_map_lookup_elem` on the `stats`
per-cpu array) are recorded as an ordered list of effects, in the order the
code issues them.
-/

namespace ScxSimple

/-- `2 ^ 64`, the modulus of unsigned 64-bit arithmetic. -/
def U64 : Nat := 2 ^ 64

/-- Unsigned 64-bit addition: `(a + b) mod 2^64`. -/
def add64 (a b : Nat) : Nat := (a + b) % U64

/-- Unsigned 64-bit subtraction: `(a - b) mod 2^64`, wrapping below zero. -/
def sub64 (a b : Nat) : Nat := (a + (U64 - b % U64)) % U64

/-- Unsigned 64-bit multiplication: `(a * b) mod 2^64`. -/
def mul64 (a b : Nat) : Nat := (a * b) % U64

/-- Kernel helper `time_before(a, b) := (s64)(a - b) < 0` (from the scx
`common.bpf.h` shim): the u64 difference `a - b`, reinterpreted as a signed
64-bit value, is negative, i.e. `(a - b) mod 2^64 ≥ 2^63`.  This is the
wraparound-aware order on 64-bit timestamps. -/
def time_before (a b : Nat) : Bool := decide (2 ^ 63 ≤ sub64 a b)

/-- `SHARED_DSQ`: the id (0) of the shared dispatch queue the policy creates. -/
def SHARED_DSQ : Nat := 0

/-- `SCX_DSQ_LOCAL`: the kernel's builtin id for the local dsq of the calling
cpu (`SCX_DSQ_FLAG_BUILTIN | 2`). -/
def SCX_DSQ_LOCAL : Nat := 2 ^ 63 + 2

/-- The fields of `p->scx` the policy reads or writes: `dsq_vtime` (the task's
virtual time), `slice` (time slice remaining, decremented by the host runtime
as the task executes) and `weight` (the task's scheduling weight).  All are
u64 values, represented as `Nat` kept below `2^64`. -/
structure Task where
  dsq_vtime : Nat
  slice : Nat
  weight : Nat
deriving DecidableEq, Repr

/-- The two counters of the `stats` per-cpu array (`max_entries = 2`):
index 0 counts local queueing, index 1 counts global queueing.  We model one
cpu's replica; each cpu only ever touches its own. -/
structure Stats where
  loc : Nat
  glob : Nat
deriving DecidableEq, Repr

/-- Global mutable state of the policy on one cpu: the global virtual clock
`vtime_now`, the cpu's `stats` replica, and the `uei` exit-record slot
(`none` until `simple_exit` runs). -/
structure State where
  vtime_now : Nat
  stats : Stats
  uei : Option Nat
deriving DecidableEq, Repr

/-- A call the policy makes into the host runtime, recorded in program order.
`statInc idx` is the lookup-and-increment of `stats[idx]`;
`dsqInsert dsq slice flags` is `scx_bpf_dsq_insert`;
`dsqInsertVtime dsq slice vtime flags` is `scx_bpf_dsq_insert_vtime`;
`dsqMoveToLocal dsq` is `scx_bpf_dsq_move_to_local`;
`createDsq dsq node` is `scx_bpf_create_dsq`;
`ueiRecord` is `UEI_RECORD`. -/
inductive Effect where
  | statInc (idx : Nat)
  | dsqInsert (dsq : Nat) (slice : Nat) (enq_flags : Nat)
  | dsqInsertVtime (dsq : Nat) (slice : Nat) (vtime : Nat) (enq_flags : Nat)
  | dsqMoveToLocal (dsq : Nat)
  | createDsq (dsq : Nat) (node : Int)
  | ueiRecord
deriving DecidableEq, Repr

/-- `stat_inc(idx)`: look up `stats[idx]` in the per-cpu array and, if the
entry exists, increment it (u64 increment, so modulo `2^64`).  The array has
`max_entries = 2`, so indices 0 and 1 exist and any other index is absent and
left untouched. -/
def stat_inc (idx : Nat) (s : Stats) : Stats :=
  if idx = 0 then { s with loc := add64 s.loc 1 }
  else if idx = 1 then { s with glob := add64 s.glob 1 }
  else s

/-- `simple_select_cpu`: ask the host runtime's default idle-core search
(`scx_bpf_select_cpu_dfl`, modelled by its result `cpu` and out-parameter
`is_idle`); if the chosen cpu is idle, count a local queueing
(`stat_inc(0)`) and insert the task into `SCX_DSQ_LOCAL` with the default
slice `slice_dfl` (the host constant `SCX_SLICE_DFL`) and flags 0; always
return `cpu`. -/
def simple_select_cpu (cpu : Int) (is_idle : Bool) (slice_dfl : Nat)
    (s : State) : Int × State × List Effect :=
  if is_idle then
    (cpu, { s with stats := stat_inc 0 s.stats },
      [.statInc 0, .dsqInsert SCX_DSQ_LOCAL slice_dfl 0])
  else
    (cpu, s, [])

/-- `simple_enqueue`: first count a global queueing (`stat_inc(1)`); then, in
FIFO mode, insert into `SHARED_DSQ` with the default slice; in weighted mode,
read the task's `dsq_vtime` into a local, clamp it with
`time_before(vtime, vtime_now - SCX_SLICE_DFL)` so an idling task accumulates
at most one slice of budget, and insert with that vtime key.  The task's own
`dsq_vtime` field is not written. -/
def simple_enqueue (fifo_sched : Bool) (slice_dfl : Nat) (p : Task)
    (enq_flags : Nat) (s : State) : State × List Effect :=
  let s1 := { s with stats := stat_inc 1 s.stats }
  if fifo_sched then
    (s1, [.statInc 1, .dsqInsert SHARED_DSQ slice_dfl enq_flags])
  else
    let vtime := p.dsq_vtime
    let vtime :=
      if time_before vtime (sub64 s.vtime_now slice_dfl) then
        sub64 s.vtime_now slice_dfl
      else vtime
    (s1, [.statInc 1, .dsqInsertVtime SHARED_DSQ slice_dfl vtime enq_flags])

/-- `simple_dispatch`: move tasks from `SHARED_DSQ` to the local dsq
(`scx_bpf_dsq_move_to_local`); touches no policy state. -/
def simple_dispatch (s : State) : State × List Effect :=
  (s, [.dsqMoveToLocal SHARED_DSQ])

/-- `simple_running`: in FIFO mode, return immediately; in weighted mode,
advance the global clock to the task's `dsq_vtime` when
`time_before(vtime_now, p->scx.dsq_vtime)` holds, else leave it. -/
def simple_running (fifo_sched : Bool) (p : Task) (s : State) : State :=
  if fifo_sched then s
  else if time_before s.vtime_now p.dsq_vtime then
    { s with vtime_now := p.dsq_vtime }
  else s

/-- The vtime charge of the stopping hook:
`(SCX_SLICE_DFL - p->scx.slice) * 100 / p->scx.weight`, every operation in
u64 arithmetic (BPF unsigned division; a zero divisor yields quotient 0 under
the BPF runtime's division semantics, which `Nat` division also gives). -/
def chargeOf (slice_dfl r w : Nat) : Nat := mul64 (sub64 slice_dfl r) 100 / w

/-- The stopping-hook charge with the zero-divisor case made explicit:
`none` exactly when the divisor `w` (the task's weight) is zero, otherwise
the charge `simple_stopping` adds.  Used to settle whether the division in
the stopping hook is guarded against a zero weight. -/
def chargeChecked (slice_dfl r w : Nat) : Option Nat :=
  if w = 0 then none else some (chargeOf slice_dfl r w)

/-- `simple_stopping`: in FIFO mode, return immediately; in weighted mode,
add `(SCX_SLICE_DFL - p->scx.slice) * 100 / p->scx.weight` to the task's
`dsq_vtime` (all u64 arithmetic).  Only the task is written; the global state
is untouched. -/
def simple_stopping (fifo_sched : Bool) (slice_dfl : Nat) (p : Task) : Task :=
  if fifo_sched then p
  else { p with
    dsq_vtime := add64 p.dsq_vtime (chargeOf slice_dfl p.slice p.weight) }

/-- `simple_enable`: set the task's `dsq_vtime` to the current `vtime_now`. -/
def simple_enable (p : Task) (s : State) : Task :=
  { p with dsq_vtime := s.vtime_now }

/-- `simple_init`: `return scx_bpf_create_dsq(SHARED_DSQ, -1);` — a single
call into the host runtime whose result (`create_res`, negative on failure)
is returned unchanged. -/
def simple_init (create_res : Int) : Int × List Effect :=
  (create_res, [.createDsq SHARED_DSQ (-1)])

/-- `simple_exit`: record the exit info `ei` into the write-once `uei`
record (`UEI_RECORD(uei, ei)`); nothing else is touched. -/
def simple_exit (ei : Nat) (s : State) : State × List Effect :=
  ({ s with uei := some ei }, [.ueiRecord])

/-- Is the effect a `stat_inc` map update? -/
def isStatInc : Effect → Bool
  | .statInc _ => true
  | _ => false

/-- Is the effect a queue insertion (`scx_bpf_dsq_insert` or
`scx_bpf_dsq_insert_vtime`)? -/
def isInsert : Effect → Bool
  | .dsqInsert _ _ _ => true
  | .dsqInsertVtime _ _ _ _ => true
  | _ => false

/-- One host-driven hook invocation on a task between its enabling and its
exit.  `stopping r w` records the values of `p->scx.slice` and
`p->scx.weight` at the moment the hook runs (the host runtime decrements
`slice` while the task executes and owns `weight`); `selectCpu cpu idle`
records the result of the host's default idle-core search. -/
inductive Op where
  | selectCpu (cpu : Int) (is_idle : Bool)
  | enqueue (enq_flags : Nat)
  | dispatch
  | running
  | stopping (r : Nat) (w : Nat)
deriving DecidableEq

/-- Apply one hook invocation to the pair (task, policy state). -/
def step (fifo_sched : Bool) (slice_dfl : Nat) :
    Task × State → Op → Task × State
  | (p, s), .selectCpu cpu idle => (p, (simple_select_cpu cpu idle slice_dfl s).2.1)
  | (p, s), .enqueue fl => (p, (simple_enqueue fifo_sched slice_dfl p fl s).1)
  | (p, s), .dispatch => (p, (simple_dispatch s).1)
  | (p, s), .running => (p, simple_running fifo_sched p s)
  | (p, s), .stopping r w =>
      (simple_stopping fifo_sched slice_dfl { p with slice := r, weight := w }, s)

/-- Run a sequence of hook invocations from a starting (task, state) pair. -/
def run (fifo_sched : Bool) (slice_dfl : Nat) (ts : Task × State)
    (ops : List Op) : Task × State :=
  ops.foldl (step fifo_sched slice_dfl) ts

/-- The hook invocation `op` on `ts` does not overflow the task's u64
`dsq_vtime`: for a stopping hook in weighted mode, the vtime charge addition
stays below `2^64`; every other invocation never adds to it. -/
def stepOk (fifo_sched : Bool) (slice_dfl : Nat) (ts : Task × State) :
    Op → Bool
  | .stopping r w =>
      fifo_sched || decide (ts.1.dsq_vtime + chargeOf slice_dfl r w < U64)
  | _ => true

/-- Along the given sequence of hook invocations, no vtime charge of a
stopping hook overflows the task's u64 `dsq_vtime` (i.e. every u64 addition
in `simple_stopping` equals the mathematical sum). -/
def noWrap (fifo_sched : Bool) (slice_dfl : Nat) :
    Task × State → List Op → Bool
  | _, [] => true
  | ts, op :: ops =>
      stepOk fifo_sched slice_dfl ts op
      && noWrap fifo_sched slice_dfl (step fifo_sched slice_dfl ts op) ops

/-! ## Arithmetic helper lemmas -/

theorem U64_eq : U64 = 18446744073709551616 := by norm_num [U64]

theorem sub64_of_le {a b : Nat} (hba : b ≤ a) (ha : a < U64) :
    sub64 a b = a - b := by
  have hU := U64_eq
  have hb : b < U64 := lt_of_le_of_lt hba ha
  unfold sub64
  rw [Nat.mod_eq_of_lt hb]
  have h1 : a + (U64 - b) = U64 + (a - b) := by omega
  rw [h1, Nat.add_mod_left, Nat.mod_eq_of_lt (by omega)]

theorem sub64_of_lt {a b : Nat} (hab : a < b) (hb : b < U64) :
    sub64 a b = U64 - (b - a) := by
  have hU := U64_eq
  unfold sub64
  rw [Nat.mod_eq_of_lt hb, Nat.mod_eq_of_lt (by omega)]
  omega

theorem time_before_iff_lt {a b : Nat} (ha : a < 2 ^ 63) (hb : b < 2 ^ 63) :
    time_before a b = true ↔ a < b := by
  have hU := U64_eq
  have haU : a < U64 := by omega
  have hbU : b < U64 := by omega
  unfold time_before
  rw [decide_eq_true_iff]
  constructor
  · intro h
    by_contra hab
    push_neg at hab
    rw [sub64_of_le hab haU] at h
    omega
  · intro h
    rw [sub64_of_lt h hbU]
    omega

theorem time_before_eq_false_of_ge {a b : Nat} (ha : a < 2 ^ 63)
    (hb : b < 2 ^ 63) (h : b ≤ a) : time_before a b = false := by
  rw [← Bool.not_eq_true, time_before_iff_lt ha hb]
  omega

/-! ## Claim theorems -/

/-- C1: in weighted mode (`fifo_sched = false`), for a task with
`default_slice = S`, `time_slice_remaining = r` and `weight = w`, the
stopping hook adds exactly `(S - r) * 100 / w` (integer division) to the
task's virtual time, whenever `r ≤ S`, `w > 0` and neither the product nor
the final sum overflows u64. -/
theorem charge_formula_exact (S r w vt : Nat) (hr : r ≤ S) (hS : S < U64)
    (hw : 0 < w) (hov : (S - r) * 100 < U64)
    (hsum : vt + (S - r) * 100 / w < U64) :
    (simple_stopping false S ⟨vt, r, w⟩).dsq_vtime = vt + (S - r) * 100 / w := by
  have h0 : (simple_stopping false S ⟨vt, r, w⟩).dsq_vtime
      = add64 vt (chargeOf S r w) := rfl
  rw [h0]
  unfold add64 chargeOf mul64
  rw [sub64_of_le hr hS, Nat.mod_eq_of_lt hov, Nat.mod_eq_of_lt hsum]

/-- C1 witness: with `S = 20, r = 5, w = 100` the stopping hook adds 15, and
with `S = 20, r = 0, w = 200` it adds 10. -/
theorem charge_formula_exact_witness :
    (simple_stopping false 20 ⟨0, 5, 100⟩).dsq_vtime = 15 ∧
    (simple_stopping false 20 ⟨0, 0, 200⟩).dsq_vtime = 10 := by
  constructor
  · rw [charge_formula_exact 20 5 100 0 (by norm_num) (by norm_num [U64])
      (by norm_num) (by norm_num [U64]) (by norm_num [U64])]
  · rw [charge_formula_exact 20 0 200 0 (by norm_num) (by norm_num [U64])
      (by norm_num) (by norm_num [U64]) (by norm_num [U64])]

/-- C10: for every task with positive weight, the weighted-mode stopping
hook sets the task's virtual time to
`(vt + (((S - r) mod 2^64) * 100 mod 2^64) / w) mod 2^64` — the exact u64
semantics of `p->scx.dsq_vtime += (SCX_SLICE_DFL - p->scx.slice) * 100 /
p->scx.weight`; the charge is bounded by `S * 100 / w` whenever `r ≤ S`;
and when `r > S` the u64 subtraction wraps to the huge value
`2^64 - (r - S)`. -/
theorem stopping_charge_u64_semantics (S r w vt : Nat) (hw : 0 < w)
    (hS : S < U64) (hr : r < U64) :
    (simple_stopping false S ⟨vt, r, w⟩).dsq_vtime
      = (vt + sub64 S r * 100 % U64 / w) % U64 ∧
    (r ≤ S → chargeOf S r w ≤ S * 100 / w) ∧
    (S < r → sub64 S r = U64 - (r - S)) := by
  refine ⟨rfl, ?_, ?_⟩
  · intro hrS
    unfold chargeOf mul64
    rw [sub64_of_le hrS hS]
    apply Nat.div_le_div_right
    calc (S - r) * 100 % U64 ≤ (S - r) * 100 := Nat.mod_le _ _
      _ ≤ S * 100 := Nat.mul_le_mul_right 100 (Nat.sub_le S r)
  · intro hSr
    exact sub64_of_lt hSr hr

/-- C10 witness: at `S = 20, r = 5, w = 100, vt = 7` the hook computes the
mod-2^64 formula and the charge is bounded by `20 * 100 / 100`; at
`S = 20, r = 25` the subtraction wraps to `2^64 - 5`. -/
theorem stopping_charge_u64_semantics_witness :
    (simple_stopping false 20 ⟨7, 5, 100⟩).dsq_vtime
      = (7 + sub64 20 5 * 100 % U64 / 100) % U64 ∧
    chargeOf 20 5 100 ≤ 20 * 100 / 100 ∧
    sub64 20 25 = U64 - 5 := by
  have h1 := stopping_charge_u64_semantics 20 5 100 7 (by norm_num)
    (by norm_num [U64]) (by norm_num [U64])
  have h2 := stopping_charge_u64_semantics 20 25 100 7 (by norm_num)
    (by norm_num [U64]) (by norm_num [U64])
  exact ⟨h1.1, h1.2.1 (by norm_num), h2.2.2 (by norm_num)⟩

/-- C3 counterexample: nothing in the core guards the charge division
against a zero weight — at `weight = 0` the division is still reached
(`chargeChecked` reports the zero divisor) and executes under the BPF
runtime's division-by-zero semantics (quotient 0, leaving `dsq_vtime`
unchanged) rather than being skipped by any check. -/
theorem stopping_zero_weight_reaches_division :
    chargeChecked 20 5 0 = none ∧
    (simple_stopping false 20 ⟨7, 5, 0⟩).dsq_vtime = 7 := ⟨rfl, rfl⟩

/-- C3 (amended): the core itself performs no zero-weight check; positive
weight is a host-runtime invariant, and under that precondition the charge
division has a nonzero divisor (`chargeChecked` succeeds) and the stopping
hook adds exactly the well-defined charge. -/
theorem stopping_charge_positive_weight_safe (S : Nat) (p : Task)
    (hw : 0 < p.weight) :
    chargeChecked S p.slice p.weight = some (chargeOf S p.slice p.weight) ∧
    (simple_stopping false S p).dsq_vtime
      = add64 p.dsq_vtime (chargeOf S p.slice p.weight) := by
  refine ⟨?_, rfl⟩
  unfold chargeChecked
  rw [if_neg (Nat.pos_iff_ne_zero.mp hw)]

/-- C3 witness: at weight 100 the checked division succeeds and the hook
adds the charge. -/
theorem stopping_charge_positive_weight_safe_witness :
    chargeChecked 20 5 100 = some (chargeOf 20 5 100) ∧
    (simple_stopping false 20 ⟨7, 5, 100⟩).dsq_vtime
      = add64 7 (chargeOf 20 5 100) :=
  stopping_charge_positive_weight_safe 20 ⟨7, 5, 100⟩ (by norm_num)

/-- C2: in weighted mode (normal clock regime: `default_slice ≤ vtime_now`
and clock and task vtime below `2^63`, where the wraparound-aware comparison
coincides with `<`), the enqueue key is the task's `virtual_time` clamped
from below at `vtime_now - default_slice`, i.e. `max (vtime_now -
default_slice) virtual_time`; in particular the key is never lower than
`vtime_now - default_slice`, however stale the task's vtime is. -/
theorem enqueue_key_clamped (sd vt clk sl w fl : Nat) (st : Stats)
    (u : Option Nat) (hsd : sd ≤ clk) (hclk : clk < 2 ^ 63)
    (hvt : vt < 2 ^ 63) :
    (simple_enqueue false sd ⟨vt, sl, w⟩ fl ⟨clk, st, u⟩).2
      = [Effect.statInc 1,
         Effect.dsqInsertVtime SHARED_DSQ sd (max (clk - sd) vt) fl] ∧
    clk - sd ≤ max (clk - sd) vt := by
  have hU := U64_eq
  have h1 : sub64 clk sd = clk - sd := sub64_of_le hsd (by omega)
  have hcs : clk - sd < 2 ^ 63 := by omega
  refine ⟨?_, Nat.le_max_left _ _⟩
  rcases Nat.lt_or_ge vt (clk - sd) with h | h
  · have htb : time_before vt (clk - sd) = true :=
      (time_before_iff_lt hvt hcs).mpr h
    simp [simple_enqueue, h1, htb, Nat.max_eq_left (Nat.le_of_lt h)]
  · have htb : time_before vt (clk - sd) = false :=
      time_before_eq_false_of_ge hvt hcs h
    simp [simple_enqueue, h1, htb, Nat.max_eq_right h]

/-- C2 witness: with `vtime_now = 100`, `default_slice = 20` and a stale
task vtime of 5, the enqueue key is `100 - 20 = 80`. -/
theorem enqueue_key_clamped_witness :
    (simple_enqueue false 20 ⟨5, 0, 100⟩ 0 ⟨100, ⟨0, 0⟩, none⟩).2
      = [Effect.statInc 1,
         Effect.dsqInsertVtime SHARED_DSQ 20 (max (100 - 20) 5) 0] ∧
    100 - 20 ≤ max (100 - 20) 5 :=
  enqueue_key_clamped 20 5 100 0 100 0 ⟨0, 0⟩ none (by norm_num)
    (by norm_num) (by norm_num)

/-- C9: the enqueue clamp compares through the wraparound-aware signed
comparison `time_before`, so when `vtime_now < default_slice` (e.g. the
freshly initialized clock 0) and the task's vtime is at most `vtime_now`,
the clamp does not fire and the key is the task's own vtime, not the
wrapped value of `vtime_now - default_slice` mod `2^64`. -/
theorem enqueue_clamp_wraparound_aware (sd vt clk sl w fl : Nat) (st : Stats)
    (u : Option Nat) (hsd : sd < 2 ^ 63) (hclk : clk < sd) (hvt : vt ≤ clk) :
    (simple_enqueue false sd ⟨vt, sl, w⟩ fl ⟨clk, st, u⟩).2
      = [Effect.statInc 1, Effect.dsqInsertVtime SHARED_DSQ sd vt fl] := by
  have hU := U64_eq
  have hsdU : sd < U64 := by omega
  have h1 : sub64 clk sd = U64 - (sd - clk) := sub64_of_lt hclk hsdU
  have htb : time_before vt (sub64 clk sd) = false := by
    rw [h1]
    unfold time_before sub64
    rw [Nat.mod_eq_of_lt (show U64 - (sd - clk) < U64 by omega),
      Nat.mod_eq_of_lt (show vt + (U64 - (U64 - (sd - clk))) < U64 by omega)]
    simp only [decide_eq_false_iff_not]
    omega
  simp [simple_enqueue, htb]

/-- C9 witness: with the freshly initialized clock `vtime_now = 0`,
`default_slice = 20` and task vtime 0, the key is 0. -/
theorem enqueue_clamp_wraparound_aware_witness :
    (simple_enqueue false 20 ⟨0, 0, 100⟩ 0 ⟨0, ⟨0, 0⟩, none⟩).2
      = [Effect.statInc 1, Effect.dsqInsertVtime SHARED_DSQ 20 0 0] :=
  enqueue_clamp_wraparound_aware 20 0 0 0 100 0 ⟨0, 0⟩ none (by norm_num)
    (by norm_num) (Nat.le_refl 0)

/-- C5: `vtime_now` is written only by the running hook: in weighted mode
(normal regime, both values below `2^63`) the running hook sets it to
`max vtime_now dsq_vtime` (advance only when the task's vtime exceeds it);
in FIFO mode the running hook is the identity; and the cpu-selection,
enqueue, dispatch and exit hooks leave `vtime_now` unchanged (the stopping
and enable hooks write only the task, which their types show). -/
theorem vtime_now_written_only_by_running (p : Task) (s : State) (cpu : Int)
    (idle fifo : Bool) (sd fl ei : Nat)
    (hclk : s.vtime_now < 2 ^ 63) (hvt : p.dsq_vtime < 2 ^ 63) :
    simple_running true p s = s ∧
    (simple_running false p s).vtime_now = max s.vtime_now p.dsq_vtime ∧
    (simple_select_cpu cpu idle sd s).2.1.vtime_now = s.vtime_now ∧
    (simple_enqueue fifo sd p fl s).1.vtime_now = s.vtime_now ∧
    (simple_dispatch s).1.vtime_now = s.vtime_now ∧
    (simple_exit ei s).1.vtime_now = s.vtime_now := by
  refine ⟨rfl, ?_, ?_, ?_, rfl, rfl⟩
  · rcases Nat.lt_or_ge s.vtime_now p.dsq_vtime with h | h
    · have htb := (time_before_iff_lt hclk hvt).mpr h
      simp [simple_running, htb, Nat.max_eq_right (Nat.le_of_lt h)]
    · have htb := time_before_eq_false_of_ge hclk hvt h
      simp [simple_running, htb, Nat.max_eq_left h]
  · cases idle <;> simp [simple_select_cpu]
  · cases fifo <;> simp [simple_enqueue]

/-- C5 witness: at clock 3 and task vtime 5, the weighted running hook
advances the clock to 5 and every other hook leaves it at 3. -/
theorem vtime_now_written_only_by_running_witness :
    simple_running true ⟨5, 0, 100⟩ ⟨3, ⟨0, 0⟩, none⟩ = ⟨3, ⟨0, 0⟩, none⟩ ∧
    (simple_running false ⟨5, 0, 100⟩ ⟨3, ⟨0, 0⟩, none⟩).vtime_now = max 3 5 ∧
    (simple_select_cpu 2 true 20 ⟨3, ⟨0, 0⟩, none⟩).2.1.vtime_now = 3 ∧
    (simple_enqueue false 20 ⟨5, 0, 100⟩ 0 ⟨3, ⟨0, 0⟩, none⟩).1.vtime_now = 3 ∧
    (simple_dispatch ⟨3, ⟨0, 0⟩, none⟩).1.vtime_now = 3 ∧
    (simple_exit 1 ⟨3, ⟨0, 0⟩, none⟩).1.vtime_now = 3 :=
  vtime_now_written_only_by_running ⟨5, 0, 100⟩ ⟨3, ⟨0, 0⟩, none⟩ 2 true
    false 20 0 1 (by norm_num) (by norm_num)

/-- C6: every enqueue invocation, in both modes, increments the invoking
core's "global" counter exactly once (the "local" counter is untouched),
and its effect list is exactly the `stat_inc(1)` followed by one queue
insertion — the increment precedes the insertion; moreover no hook ever
decreases either counter (under the u64 no-overflow side conditions on the
two counters). -/
theorem enqueue_global_stat_once (fifo : Bool) (sd fl : Nat) (p : Task)
    (s : State) (cpu : Int) (idle : Bool) (ei : Nat)
    (hg : s.stats.glob + 1 < U64) (hl : s.stats.loc + 1 < U64) :
    (simple_enqueue fifo sd p fl s).1.stats.glob = s.stats.glob + 1 ∧
    (simple_enqueue fifo sd p fl s).1.stats.loc = s.stats.loc ∧
    (∃ e, (simple_enqueue fifo sd p fl s).2 = [Effect.statInc 1, e] ∧
      isStatInc e = false ∧ isInsert e = true) ∧
    s.stats.glob ≤ (simple_enqueue fifo sd p fl s).1.stats.glob ∧
    s.stats.loc ≤ (simple_select_cpu cpu idle sd s).2.1.stats.loc ∧
    s.stats.glob ≤ (simple_select_cpu cpu idle sd s).2.1.stats.glob ∧
    (simple_running fifo p s).stats = s.stats ∧
    (simple_dispatch s).1.stats = s.stats ∧
    (simple_exit ei s).1.stats = s.stats := by
  have hg1 : add64 s.stats.glob 1 = s.stats.glob + 1 := by
    rw [add64, Nat.mod_eq_of_lt hg]
  have hl1 : add64 s.stats.loc 1 = s.stats.loc + 1 := by
    rw [add64, Nat.mod_eq_of_lt hl]
  have henq : (simple_enqueue fifo sd p fl s).1.stats.glob = s.stats.glob + 1
      ∧ (simple_enqueue fifo sd p fl s).1.stats.loc = s.stats.loc := by
    cases fifo <;> simp [simple_enqueue, stat_inc, hg1]
  refine ⟨henq.1, henq.2, ?_, by rw [henq.1]; exact Nat.le_succ _, ?_, ?_,
    ?_, rfl, rfl⟩
  · cases fifo with
    | true => exact ⟨_, rfl, rfl, rfl⟩
    | false => exact ⟨_, rfl, rfl, rfl⟩
  · cases idle <;> simp [simple_select_cpu, stat_inc, hl1]
  · cases idle <;> simp [simple_select_cpu, stat_inc]
  · unfold simple_running
    split
    · rfl
    · split <;> rfl

/-- C6 witness: an enqueue at counters (loc 1, glob 2) moves glob to 3,
with the `stat_inc(1)` first in the effect list, followed by the single
insertion. -/
theorem enqueue_global_stat_once_witness :
    (simple_enqueue false 20 ⟨5, 0, 100⟩ 0 ⟨3, ⟨1, 2⟩, none⟩).1.stats.glob
      = 2 + 1 ∧
    (∃ e, (simple_enqueue false 20 ⟨5, 0, 100⟩ 0 ⟨3, ⟨1, 2⟩, none⟩).2
      = [Effect.statInc 1, e] ∧ isStatInc e = false ∧ isInsert e = true) := by
  have h := enqueue_global_stat_once false 20 0 ⟨5, 0, 100⟩ ⟨3, ⟨1, 2⟩, none⟩
    0 true 0 (by norm_num [U64]) (by norm_num [U64])
  exact ⟨h.1, h.2.2.1⟩

/-- C7: the cpu-selection hook always returns the core chosen by the host's
default idle-core search; exactly when that search reported the core idle,
it increments the "local" counter (only) and inserts the task into the
core's local run queue with the default slice; and it performs at most one
counter increment and at most one placement. -/
theorem select_cpu_contract (cpu : Int) (idle : Bool) (sd : Nat) (s : State)
    (hl : s.stats.loc + 1 < U64) :
    (simple_select_cpu cpu idle sd s).1 = cpu ∧
    (idle = true →
      (simple_select_cpu cpu idle sd s).2.1.stats.loc = s.stats.loc + 1 ∧
      (simple_select_cpu cpu idle sd s).2.1.stats.glob = s.stats.glob ∧
      (simple_select_cpu cpu idle sd s).2.2
        = [Effect.statInc 0, Effect.dsqInsert SCX_DSQ_LOCAL sd 0]) ∧
    (idle = false →
      (simple_select_cpu cpu idle sd s).2.1 = s ∧
      (simple_select_cpu cpu idle sd s).2.2 = []) ∧
    (simple_select_cpu cpu idle sd s).2.2.countP isStatInc ≤ 1 ∧
    (simple_select_cpu cpu idle sd s).2.2.countP isInsert ≤ 1 := by
  have hl1 : add64 s.stats.loc 1 = s.stats.loc + 1 := by
    rw [add64, Nat.mod_eq_of_lt hl]
  cases idle <;>
    simp [simple_select_cpu, stat_inc, hl1, List.countP_cons, isStatInc,
      isInsert]

/-- C7 witness: an idle search result at core 3 returns 3, bumps the local
counter from 0 to 1 and emits exactly the increment followed by the local
insertion. -/
theorem select_cpu_contract_witness :
    (simple_select_cpu 3 true 20 ⟨0, ⟨0, 0⟩, none⟩).1 = 3 ∧
    (simple_select_cpu 3 true 20 ⟨0, ⟨0, 0⟩, none⟩).2.1.stats.loc = 0 + 1 ∧
    (simple_select_cpu 3 true 20 ⟨0, ⟨0, 0⟩, none⟩).2.1.stats.glob = 0 ∧
    (simple_select_cpu 3 true 20 ⟨0, ⟨0, 0⟩, none⟩).2.2
      = [Effect.statInc 0, Effect.dsqInsert SCX_DSQ_LOCAL 20 0] := by
  have h := select_cpu_contract 3 true 20 ⟨0, ⟨0, 0⟩, none⟩
    (by norm_num [U64])
  exact ⟨h.1, h.2.1 rfl⟩

/-- C8: the init hook consists of the single call
`scx_bpf_create_dsq(SHARED_DSQ, -1)` and returns its result unchanged, so
it returns a negative error code exactly when queue creation failed, and
performs no other action. -/
theorem init_propagates_create_dsq (create_res : Int) :
    (simple_init create_res).1 = create_res ∧
    ((simple_init create_res).1 < 0 ↔ create_res < 0) ∧
    (simple_init create_res).2 = [Effect.createDsq SHARED_DSQ (-1)] :=
  ⟨rfl, Iff.rfl, rfl⟩

/-- C4 (amended): along any sequence of post-enable hook invocations in
which no stopping charge overflows the u64 task vtime (`noWrap`), the
task's `dsq_vtime` never decreases: the value after running the sequence is
at least the value at its start (and hence at least its value at any
earlier point of the sequence, the start state being arbitrary). -/
theorem vtime_monotone_no_wrap (fifo : Bool) (sd : Nat) (ts : Task × State)
    (ops : List Op) (h : noWrap fifo sd ts ops = true) :
    ts.1.dsq_vtime ≤ (run fifo sd ts ops).1.dsq_vtime := by
  induction ops generalizing ts with
  | nil => exact Nat.le_refl _
  | cons op ops ih =>
    replace h : (stepOk fifo sd ts op
        && noWrap fifo sd (step fifo sd ts op) ops) = true := h
    rw [Bool.and_eq_true] at h
    obtain ⟨h1, h2⟩ := h
    have hstep : ts.1.dsq_vtime ≤ (step fifo sd ts op).1.dsq_vtime := by
      obtain ⟨p, s⟩ := ts
      cases op with
      | selectCpu cpu idle => exact Nat.le_refl _
      | enqueue fl => exact Nat.le_refl _
      | dispatch => exact Nat.le_refl _
      | running => exact Nat.le_refl _
      | stopping r w =>
        cases fifo with
        | true => exact Nat.le_refl _
        | false =>
          replace h1 : decide (p.dsq_vtime + chargeOf sd r w < U64)
              = true := h1
          rw [decide_eq_true_eq] at h1
          show p.dsq_vtime ≤ add64 p.dsq_vtime (chargeOf sd r w)
          rw [add64, Nat.mod_eq_of_lt h1]
          exact Nat.le_add_right _ _
    exact Nat.le_trans hstep (ih (step fifo sd ts op) h2)

/-- C4 witness: a run-stop-enqueue sequence with no overflow takes the task
vtime from 3 upward, never below 3. -/
theorem vtime_monotone_no_wrap_witness :
    noWrap false 20 (⟨3, 0, 100⟩, ⟨0, ⟨0, 0⟩, none⟩)
      [Op.running, Op.stopping 5 100, Op.enqueue 0] = true ∧
    3 ≤ (run false 20 (⟨3, 0, 100⟩, ⟨0, ⟨0, 0⟩, none⟩)
      [Op.running, Op.stopping 5 100, Op.enqueue 0]).1.dsq_vtime :=
  ⟨by decide, vtime_monotone_no_wrap false 20
    (⟨3, 0, 100⟩, ⟨0, ⟨0, 0⟩, none⟩)
    [Op.running, Op.stopping 5 100, Op.enqueue 0] (by decide)⟩

/-- C4 counterexample: with a default slice of `2^60`, weight 1 and fully
consumed slices, each stopping charge is `2^62`, and the fourth stopping
wraps the u64 task vtime from `3 * 2^62` to 0 — the vtime after the longer
sequence of hook invocations (starting from the enable hook's output at
clock 0) is strictly below its value at an earlier point, refuting "never
decreases" as stated. -/
theorem vtime_decreases_on_u64_wrap :
    (run false (2 ^ 60)
        (simple_enable ⟨999, 0, 1⟩ ⟨0, ⟨0, 0⟩, none⟩, ⟨0, ⟨0, 0⟩, none⟩)
        [Op.running, Op.stopping 0 1, Op.running, Op.stopping 0 1,
         Op.running, Op.stopping 0 1, Op.running, Op.stopping 0 1]).1.dsq_vtime
      < (run false (2 ^ 60)
        (simple_enable ⟨999, 0, 1⟩ ⟨0, ⟨0, 0⟩, none⟩, ⟨0, ⟨0, 0⟩, none⟩)
        [Op.running, Op.stopping 0 1, Op.running, Op.stopping 0 1,
         Op.running, Op.stopping 0 1]).1.dsq_vtime := by
  decide

end ScxSimple
